import Mathlib

set_option maxRecDepth 4000

/-!
Shallow embedding of the proof-of-work difficulty retargeting core of the
`dsvd` repository (`src/blockchain/difficulty.go`), together with theorems
settling the specification claims about it.

Conventions of the embedding:

* Go `int32`/`int64` values (heights, Unix timestamps, solvetimes, window
  parameters) are modelled as `Int`.  The fixed-width overflow of these
  types is unreachable for the chains and parameters the algorithms are
  meant for, so no wrap-around is inserted for them; the bit-level
  fixed-point arithmetic of the codec and of ASERT, where masking and
  truncation do matter at realistic inputs, is modelled exactly
  (`&&&`, `>>>`, `<<<`, `% 2^32`, `% 2^64` as in the source).
* `math/big` integers are `Int`.  Go's `big.Int.Div` is Euclidean
  division, embedded as `Int.ediv`; `big.Int.Rsh` on a signed value is a
  floor shift, embedded as `Int.fdiv` by a power of two; Go's native
  `int64` division is truncated, embedded as `Int.tdiv`.
* A `HeaderCtx` chain view is a `List Header` whose head is the node
  itself and whose tail holds its ancestors; `Parent()` returning `nil`
  corresponds to the tail being empty.
* Functions that in Go can return an `AssertError` or panic (nil-pointer
  dereference, `big.Int` division by zero) return `DiffResult`, with
  constructors for each outcome.
* Durations in `Params` are nanoseconds, as Go's `time.Duration`; the
  source's divisions by `time.Second` appear as `Int.tdiv _ 1000000000`.
-/

/-- One block header as seen through the `HeaderCtx` interface:
height, Unix timestamp in seconds, and compact difficulty bits. -/
structure Header where
  height : Int
  timestamp : Int
  bits : Nat
deriving DecidableEq, Repr

/-- Outcome of a difficulty calculation: a compact target, an
`AssertError`, or a Go runtime panic (nil dereference or `big.Int`
division by zero). -/
inductive DiffResult where
  | ok (bits : Nat)
  | assertErr (msg : String)
  | crash (msg : String)
deriving DecidableEq, Repr

/-- Whether a `DiffResult` is a successfully computed compact target. -/
def DiffResult.isOk : DiffResult → Bool
  | .ok _ => true
  | _ => false

/-- The difficulty-relevant subset of `chaincfg.Params`
(`src/unnamed/part_001`).  Durations are in nanoseconds as Go's
`time.Duration`. -/
structure Params where
  powLimit : Int
  powLimitBits : Nat
  powNoRetargeting : Bool
  targetTimespan : Int
  targetTimePerBlock : Int
  retargetAdjustmentFactor : Int
  reduceMinDifficulty : Bool
  minDiffReductionTime : Int
  lwmaHeight : Int
  lwmaFixHeight : Int
  lwmaWindow : Int
  asertHeight : Int
  asertHalfLife : Int
  asertAnchorBits : Nat
deriving DecidableEq, Repr

/-- The `ChainCtx` capability interface: the network parameters plus the
derived retarget quantities it exposes (`BlocksPerRetarget`,
`MinRetargetTimespan`, `MaxRetargetTimespan`). -/
structure ChainCtx where
  params : Params
  blocksPerRetarget : Int
  minRetargetTimespan : Int
  maxRetargetTimespan : Int
deriving DecidableEq, Repr

/-- Fuel-bounded byte length; `byteLenAux f n` equals the byte length of
`n` whenever `n < 256 ^ f`. -/
def byteLenAux : Nat → Nat → Nat
  | 0, _ => 0
  | f + 1, n => if n = 0 then 0 else byteLenAux f (n / 256) + 1

/-- Length of `big.Int.Bytes()`: the number of base-256 digits of the
magnitude.  The fuel 300 covers every value below `256 ^ 300`, far above
any value reachable from a 32-bit compact encoding or a 256-bit target. -/
def byteLen (n : Nat) : Nat := byteLenAux 300 n

/-- Embedding of `CompactToBig` (`difficulty.go` lines 62-88): decode a 32-bit compact
representation into a signed arbitrary-precision integer. -/
def CompactToBig (compact : Nat) : Int :=
  let mantissa0 := compact &&& 0x007fffff
  let isNegative := compact &&& 0x00800000 ≠ 0
  let exponent := compact >>> 24
  let bn : Int :=
    if exponent ≤ 3 then ((mantissa0 >>> (8 * (3 - exponent)) : Nat) : Int)
    else ((mantissa0 <<< (8 * (exponent - 3)) : Nat) : Int)
  if isNegative then -bn else bn

/-- Embedding of `BigToCompact` (`difficulty.go` lines 94-130): encode a signed
arbitrary-precision integer into the 32-bit compact representation.
`uint32` truncations of the source are kept as `% 2 ^ 32`
(`n.Bits()[0]` takes the low 64-bit word first, which the later `% 2 ^ 32`
subsumes); `tn.Rsh` on the signed copy is a floor shift (`Int.fdiv`). -/
def BigToCompact (n : Int) : Nat :=
  if n = 0 then 0
  else
    let exponent := byteLen n.natAbs
    let mantissa0 : Nat :=
      if exponent ≤ 3 then
        ((n.natAbs % 2 ^ 32) <<< (8 * (3 - exponent))) % 2 ^ 32
      else
        (Int.fdiv n (2 ^ (8 * (exponent - 3)))).natAbs % 2 ^ 32
    let norm : Nat × Nat :=
      if mantissa0 &&& 0x00800000 ≠ 0 then (mantissa0 >>> 8, exponent + 1)
      else (mantissa0, exponent)
    let compact := ((norm.2 <<< 24) % 2 ^ 32) ||| norm.1
    if n < 0 then compact ||| 0x00800000 else compact

/-- Embedding of `oneLsh256` (`difficulty.go` line 21). -/
def oneLsh256 : Int := 2 ^ 256

/-- Embedding of `CalcWork` (`difficulty.go` lines 142-154): work value of a compact
difficulty, `2^256 / (target + 1)`, or `0` for non-positive targets.
`big.Int.Div` is Euclidean division (`Int.ediv`, which `/` denotes). -/
def CalcWork (bits : Nat) : Int :=
  let difficultyNum := CompactToBig bits
  if difficultyNum.sign ≤ 0 then 0
  else oneLsh256 / (difficultyNum + 1)

/-- Compact bits of the head of a chain view; `0` for the impossible
empty view (callers only apply it to non-empty chains). -/
def headBits : List Header → Nat
  | [] => 0
  | h :: _ => h.bits

/-- Modelled from the spec: `HeaderCtx.RelativeAncestorCtx` is not under
`src/`; per the spec, `ancestor(n)` walks back `n` generations along
parent links and is absent when the chain is too short. -/
def relativeAncestorCtx : List Header → Nat → Option (List Header)
  | node, 0 => some node
  | _ :: p :: t, k + 1 => relativeAncestorCtx (p :: t) k
  | _, _ + 1 => none

/-- Embedding of `findPrevTestNetDifficulty` (`difficulty.go` lines 196-213): walk
back while the node is off a retarget boundary and carries the minimum
difficulty; return the bits found, or `PowLimitBits` when the walk
exhausts the chain. -/
def findPrevTestNetDifficulty (startNode : List Header) (c : ChainCtx) : Nat :=
  match startNode with
  | [] => c.params.powLimitBits
  | h :: t =>
    if h.height.tmod c.blocksPerRetarget ≠ 0 ∧ h.bits = c.params.powLimitBits then
      findPrevTestNetDifficulty t c
    else h.bits

/-- Steps 5-8 of the legacy retarget (`difficulty.go` lines 289-331),
taking the already-located window-start node (`firstNode`): clamp the
actual timespan, scale the previous target, cap at `PowLimit`, encode.
Factored out of `legacyRetarget` so theorems can speak about which
ancestor the window starts at. -/
def legacyFromFirst (lastNode : List Header) (c : ChainCtx)
    (firstNode : Option (List Header)) : DiffResult :=
  match lastNode with
  | [] => .crash "nil lastNode"
  | last :: _ =>
    match firstNode with
    | none => .assertErr "unable to obtain previous retarget block"
    | some [] => .crash "nil firstNode"
    | some (fn :: _) =>
      let actualTimespan := last.timestamp - fn.timestamp
      let adjustedTimespan :=
        if actualTimespan < c.minRetargetTimespan then c.minRetargetTimespan
        else if actualTimespan > c.maxRetargetTimespan then c.maxRetargetTimespan
        else actualTimespan
      let oldTarget := CompactToBig last.bits
      let targetTimeSpan := Int.tdiv c.params.targetTimespan 1000000000
      if targetTimeSpan = 0 then .crash "division by zero"
      else
        let newTarget := (oldTarget * adjustedTimespan) / targetTimeSpan
        let newTarget :=
          if newTarget > c.params.powLimit then c.params.powLimit else newTarget
        .ok (BigToCompact newTarget)

/-- The original BTC-style retarget branch of
`calcNextRequiredDifficulty` (`difficulty.go` lines 249-331), reached
when no later algorithm is active.  A zero `BlocksPerRetarget` would
make the Go `%` panic, hence the `crash` guard. -/
def legacyRetarget (lastNode : List Header) (newBlockTime : Int)
    (c : ChainCtx) : DiffResult :=
  match lastNode with
  | [] => .crash "nil lastNode"
  | last :: rest =>
    if c.blocksPerRetarget = 0 then .crash "division by zero"
    else if (last.height + 1).tmod c.blocksPerRetarget ≠ 0 then
      if c.params.reduceMinDifficulty then
        let reductionTime := Int.tdiv c.params.minDiffReductionTime 1000000000
        let allowMinTime := last.timestamp + reductionTime
        if newBlockTime > allowMinTime then .ok c.params.powLimitBits
        else .ok (findPrevTestNetDifficulty (last :: rest) c)
      else .ok last.bits
    else
      let blocksBack := c.blocksPerRetarget - 1
      let blocksBack :=
        if last.height + 1 ≠ c.blocksPerRetarget then c.blocksPerRetarget
        else blocksBack
      let firstNode :=
        if blocksBack < 0 then none
        else relativeAncestorCtx (last :: rest) blocksBack.toNat
      legacyFromFirst (last :: rest) c firstNode

/-- Clamping of one sampled solvetime into `[1, 6 T]`, in the order the
source applies the two bounds (`difficulty.go` lines 369-374). -/
def clampSolve (T st : Int) : Int :=
  let st := if st < 1 then 1 else st
  if st > 6 * T then 6 * T else st

/-- The shared backward walk of both LWMA variants (`difficulty.go`
lines 361-380 and 442-461): starting at weight `i` and descending to 1,
accumulate `(sumWeightedSolvetimes, sumWeights)`, stopping early when a
parent is missing. -/
def lwmaWalk (T : Int) : List Header → Nat → Int × Int
  | _, 0 => (0, 0)
  | [], _ + 1 => (0, 0)
  | [_], _ + 1 => (0, 0)
  | cur :: p :: t, i + 1 =>
    let st := clampSolve T (cur.timestamp - p.timestamp)
    let r := lwmaWalk T (p :: t) i
    (r.1 + st * ((i : Int) + 1), r.2 + ((i : Int) + 1))

/-- Embedding of `calcNextRequiredDifficultyLWMA` (`difficulty.go` lines 340-404):
LWMA v1.  A zero `expectedWeightedSolvetimes` makes the Go
`big.Int.Div` panic, modelled as `crash`. -/
def calcNextRequiredDifficultyLWMA (lastNode : List Header) (c : ChainCtx) : DiffResult :=
  match lastNode with
  | [] => .crash "nil lastNode"
  | last :: rest =>
    let params := c.params
    let T := Int.tdiv params.targetTimePerBlock 1000000000
    let N := params.lwmaWindow
    let height := last.height + 1
    let blocks := height - params.lwmaHeight
    let blocks := if blocks > N then N else blocks
    if blocks < 3 then .ok last.bits
    else
      let prevTarget := CompactToBig last.bits
      let sums := lwmaWalk T (last :: rest) blocks.toNat
      let expectedWeightedSolvetimes := sums.2 * T
      let minWS := Int.tdiv expectedWeightedSolvetimes 10
      let maxWS := expectedWeightedSolvetimes * 10
      let sumWS := if sums.1 < minWS then minWS else sums.1
      let sumWS := if sumWS > maxWS then maxWS else sumWS
      if expectedWeightedSolvetimes = 0 then .crash "division by zero"
      else
        let nextTarget := (prevTarget * sumWS) / expectedWeightedSolvetimes
        let nextTarget :=
          if nextTarget > params.powLimit then params.powLimit else nextTarget
        .ok (BigToCompact nextTarget)

/-- The window-start search of LWMA v2 (`difficulty.go` lines 429-436):
walk `blocks` parents back from `lastNode`, stopping early at a missing
parent. -/
def windowStartWalk : List Header → Nat → List Header
  | ws, 0 => ws
  | ws, k + 1 =>
    match ws with
    | _ :: p :: t => windowStartWalk (p :: t) k
    | _ => ws

/-- Embedding of `calcNextRequiredDifficultyLWMAv2` (`difficulty.go` lines 410-485):
stabilized LWMA using the window-start target as reference and 3x caps. -/
def calcNextRequiredDifficultyLWMAv2 (lastNode : List Header) (c : ChainCtx) : DiffResult :=
  match lastNode with
  | [] => .crash "nil lastNode"
  | last :: rest =>
    let params := c.params
    let T := Int.tdiv params.targetTimePerBlock 1000000000
    let N := params.lwmaWindow
    let height := last.height + 1
    let blocks := height - params.lwmaHeight
    let blocks := if blocks > N then N else blocks
    if blocks < 3 then .ok last.bits
    else
      let windowStart := windowStartWalk (last :: rest) blocks.toNat
      let referenceTarget := CompactToBig (headBits windowStart)
      let sums := lwmaWalk T (last :: rest) blocks.toNat
      let expectedWeightedSolvetimes := sums.2 * T
      let minWS := Int.tdiv expectedWeightedSolvetimes 3
      let maxWS := expectedWeightedSolvetimes * 3
      let sumWS := if sums.1 < minWS then minWS else sums.1
      let sumWS := if sumWS > maxWS then maxWS else sumWS
      if expectedWeightedSolvetimes = 0 then .crash "division by zero"
      else
        let nextTarget := (referenceTarget * sumWS) / expectedWeightedSolvetimes
        let nextTarget :=
          if nextTarget > params.powLimit then params.powLimit else nextTarget
        .ok (BigToCompact nextTarget)

/-- The ASERT anchor search (`difficulty.go` lines 499-502): walk up
from `lastNode` while the height exceeds `ASERTHeight`.  When a parent
is missing mid-walk the Go loop assigns `anchor = nil` and then calls
`anchor.Height()`, a nil dereference; that outcome is `none`. -/
def findAnchor (asertHeight : Int) : List Header → Option (List Header)
  | [] => none
  | h :: t =>
    if h.height > asertHeight then
      match t with
      | [] => none
      | p :: t' => findAnchor asertHeight (p :: t')
    else some (h :: t)

/-- Final steps of ASERT (`difficulty.go` lines 575-584): floor the
target at 1, cap at `PowLimit`, encode. -/
def finishASERT (nextTarget : Int) (params : Params) : DiffResult :=
  let nextTarget := if nextTarget = 0 then 1 else nextTarget
  let nextTarget :=
    if nextTarget > params.powLimit then params.powLimit else nextTarget
  .ok (BigToCompact nextTarget)

/-- Embedding of `calcNextRequiredDifficultyASERT` (`difficulty.go` lines 495-585).
The fixed-point decomposition and the cubic `2^x` approximation follow
the source bit for bit: `exponent >> 16` on the non-negative branch is
`Int.tdiv _ 65536`, `exponent & 0xFFFF` is `% 65536`, the polynomial is
evaluated in `uint64` (`% 2 ^ 64`), and `big.Int` shifts are exact
multiplications / floor divisions by powers of two. -/
def calcNextRequiredDifficultyASERT (lastNode : List Header) (c : ChainCtx) : DiffResult :=
  match lastNode with
  | [] => .crash "nil lastNode"
  | last :: rest =>
    let params := c.params
    match findAnchor params.asertHeight (last :: rest) with
    | none => .crash "nil pointer dereference"
    | some [] => .crash "nil anchor"
    | some (_anchor :: anchorRest) =>
      match anchorRest with
      | [] => .assertErr "ASERT anchor block has no parent"
      | anchorParent :: _ =>
        let anchorTarget := CompactToBig params.asertAnchorBits
        let timeDelta := last.timestamp - anchorParent.timestamp
        let nHeight := last.height + 1
        let heightDelta := nHeight - params.asertHeight
        let T := Int.tdiv params.targetTimePerBlock 1000000000
        let halfLife := params.asertHalfLife
        if halfLife = 0 then .crash "division by zero"
        else
          let exponent := Int.tdiv ((timeDelta - T * heightDelta) * 65536) halfLife
          let sf : Int × Nat :=
            if exponent ≥ 0 then (Int.tdiv exponent 65536, exponent.toNat % 65536)
            else
              let absExponent := -exponent
              let shifts := -(Int.tdiv absExponent 65536)
              let remainder := absExponent.toNat % 65536
              if remainder ≠ 0 then (shifts - 1, 65536 - remainder)
              else (shifts, 0)
          let shifts := sf.1
          let frac := sf.2
          let factor : Nat :=
            if frac > 0 then
              let f := frac
              65536 +
                ((195766423245049 * f + 971821376 * f * f + 5127 * f * f * f
                    + 2 ^ 47) % 2 ^ 64) >>> 48
            else 65536
          let nextTarget := Int.fdiv (anchorTarget * (factor : Int)) (2 ^ 16)
          if shifts > 0 then
            if shifts ≥ 256 then .ok (BigToCompact params.powLimit)
            else finishASERT (nextTarget * 2 ^ shifts.toNat) params
          else if shifts < 0 then
            if -shifts ≥ 256 then .ok (BigToCompact 1)
            else finishASERT (Int.fdiv nextTarget (2 ^ (-shifts).toNat)) params
          else finishASERT nextTarget params

/-- Embedding of `calcNextRequiredDifficulty` (`difficulty.go` lines 221-247): the
dispatcher.  `newBlockTime` is the proposed block's Unix timestamp in
seconds (the source only ever uses `newBlockTime.Unix()`). -/
def calcNextRequiredDifficulty (lastNode : List Header) (newBlockTime : Int)
    (c : ChainCtx) : DiffResult :=
  if c.params.powNoRetargeting then .ok c.params.powLimitBits
  else
    match lastNode with
    | [] => .ok c.params.powLimitBits
    | last :: rest =>
      let nHeight := last.height + 1
      if c.params.asertHeight > 0 ∧ nHeight > c.params.asertHeight then
        calcNextRequiredDifficultyASERT (last :: rest) c
      else if c.params.lwmaFixHeight > 0 ∧ nHeight ≥ c.params.lwmaFixHeight then
        calcNextRequiredDifficultyLWMAv2 (last :: rest) c
      else if c.params.lwmaHeight > 0 ∧ nHeight ≥ c.params.lwmaHeight then
        calcNextRequiredDifficultyLWMA (last :: rest) c
      else legacyRetarget (last :: rest) newBlockTime c

/-- The tagged choice of difficulty algorithm, for stating the
dispatcher rules. -/
inductive DiffAlgo where
  | fixedPowLimit
  | asert
  | lwmav2
  | lwma
  | legacy
deriving DecidableEq, Repr

/-- Modelled from the spec: the dispatcher's rule list (spec 4.H),
written as a first-match selector over `next = h + 1`. -/
def dispatchRule (lastNode : List Header) (c : ChainCtx) : DiffAlgo :=
  if c.params.powNoRetargeting then .fixedPowLimit
  else
    match lastNode with
    | [] => .fixedPowLimit
    | last :: _ =>
      let next := last.height + 1
      if c.params.asertHeight > 0 ∧ next > c.params.asertHeight then .asert
      else if c.params.lwmaFixHeight > 0 ∧ next ≥ c.params.lwmaFixHeight then .lwmav2
      else if c.params.lwmaHeight > 0 ∧ next ≥ c.params.lwmaHeight then .lwma
      else .legacy

/-- Decidable statement that the `i` most recent solvetimes of a chain
all equal `T` (and, implicitly, that those ancestors are all present). -/
def uniformSolve (T : Int) : List Header → Nat → Bool
  | _, 0 => true
  | c :: p :: t, i + 1 => (c.timestamp - p.timestamp == T) && uniformSolve T (p :: t) i
  | _, _ + 1 => false

/-- Sum of the LWMA weights `1 + 2 + ... + i`. -/
def triSum : Nat → Int
  | 0 => 0
  | i + 1 => triSum i + (i + 1)

/-- The mantissa `BigToCompact` extracts from a positive value before
normalisation, in arithmetic form. -/
def mantissaOf (n : Nat) : Nat :=
  if byteLen n ≤ 3 then n * 2 ^ (8 * (3 - byteLen n))
  else n / 2 ^ (8 * (byteLen n - 3))

lemma pow256_eq (j : Nat) : (256 : Nat) ^ j = 2 ^ (8 * j) := by
  rw [show (256 : Nat) = 2 ^ 8 from rfl, ← pow_mul]

lemma byteLenAux_zero (f : Nat) : byteLenAux f 0 = 0 := by
  cases f <;> simp [byteLenAux]

lemma byteLenAux_bounds :
    ∀ f n : Nat, 0 < n → n < 256 ^ f →
      256 ^ (byteLenAux f n - 1) ≤ n ∧ n < 256 ^ byteLenAux f n := by
  intro f
  induction f with
  | zero => intro n h0 hn; simp at hn; omega
  | succ f ih =>
    intro n h0 hn
    show 256 ^ (byteLenAux (f + 1) n - 1) ≤ n ∧ n < 256 ^ byteLenAux (f + 1) n
    rw [byteLenAux, if_neg (by omega)]
    by_cases hq : n / 256 = 0
    · rw [hq, byteLenAux_zero]
      constructor
      · simpa using h0
      · have : n < 256 := by omega
        simpa using this
    · have hq0 : 0 < n / 256 := Nat.pos_of_ne_zero hq
      have hqf : n / 256 < 256 ^ f := by
        rw [Nat.div_lt_iff_lt_mul (by norm_num)]
        calc n < 256 ^ (f + 1) := hn
          _ = 256 ^ f * 256 := by ring
      obtain ⟨lo, hi⟩ := ih (n / 256) hq0 hqf
      have hL1 : 1 ≤ byteLenAux f (n / 256) := by
        by_contra h
        have : byteLenAux f (n / 256) = 0 := by omega
        rw [this] at hi
        simp at hi
        omega
      constructor
      · have h1 : 256 ^ (byteLenAux f (n / 256) - 1) * 256 ≤ n / 256 * 256 :=
          Nat.mul_le_mul_right _ lo
        have h2 : n / 256 * 256 ≤ n := Nat.div_mul_le_self n 256
        calc 256 ^ (byteLenAux f (n / 256) + 1 - 1)
            = 256 ^ (byteLenAux f (n / 256) - 1) * 256 := by
              rw [← pow_succ]
              congr 1
              omega
          _ ≤ n / 256 * 256 := h1
          _ ≤ n := h2
      · have h3 : n < 256 ^ byteLenAux f (n / 256) * 256 := by
          rw [← Nat.div_lt_iff_lt_mul (by norm_num)]
          exact hi
        calc n < 256 ^ byteLenAux f (n / 256) * 256 := h3
          _ = 256 ^ (byteLenAux f (n / 256) + 1) := by rw [pow_succ]

lemma byteLen_bounds (n : Nat) (h0 : 0 < n) (hn : n < 256 ^ 300) :
    256 ^ (byteLen n - 1) ≤ n ∧ n < 256 ^ byteLen n :=
  byteLenAux_bounds 300 n h0 hn

lemma byteLen_pos (n : Nat) (h0 : 0 < n) (hn : n < 256 ^ 300) :
    1 ≤ byteLen n := by
  obtain ⟨-, hi⟩ := byteLen_bounds n h0 hn
  by_contra h
  have : byteLen n = 0 := by omega
  rw [this] at hi
  simp at hi
  omega

lemma byteLen_eq_of_bounds (n k : Nat) (hk1 : 1 ≤ k) (hk2 : k ≤ 300)
    (hlo : 256 ^ (k - 1) ≤ n) (hhi : n < 256 ^ k) : byteLen n = k := by
  have h0 : 0 < n := lt_of_lt_of_le (by positivity) hlo
  have hn : n < 256 ^ 300 :=
    lt_of_lt_of_le hhi (Nat.pow_le_pow_right (by norm_num) hk2)
  obtain ⟨lo, hi⟩ := byteLen_bounds n h0 hn
  have hL1 : 1 ≤ byteLen n := byteLen_pos n h0 hn
  have a1 : byteLen n - 1 < k :=
    (Nat.pow_lt_pow_iff_right (by norm_num)).mp (lt_of_le_of_lt lo hhi)
  have a2 : k - 1 < byteLen n :=
    (Nat.pow_lt_pow_iff_right (by norm_num)).mp (lt_of_le_of_lt hlo hi)
  omega

lemma mul_pow_lor_eq_add (a b k : Nat) (hb : b < 2 ^ k) :
    (a * 2 ^ k) ||| b = a * 2 ^ k + b := by
  apply Nat.eq_of_testBit_eq
  intro i
  rw [Nat.testBit_or, mul_comm a (2 ^ k), Nat.testBit_mul_pow_two_add a hb i,
    Nat.testBit_mul_pow_two]
  by_cases h : i < k
  · simp [h, Nat.not_le.mpr h]
  · have hbk : b < 2 ^ i :=
      lt_of_lt_of_le hb (Nat.pow_le_pow_right (by norm_num) (by omega))
    simp [h, Nat.not_lt.mp h, Nat.testBit_lt_two_pow hbk]

lemma and_mask23 (x : Nat) : x &&& 0x007fffff = x % 2 ^ 23 := by
  rw [show (0x007fffff : Nat) = 2 ^ 23 - 1 from rfl]
  exact Nat.and_pow_two_sub_one_eq_mod x 23

lemma and_bit23_eq_zero_iff (x : Nat) :
    x &&& 0x00800000 = 0 ↔ x / 2 ^ 23 % 2 = 0 := by
  rw [show (0x00800000 : Nat) = 2 ^ 23 from rfl, Nat.and_two_pow,
    Nat.testBit_to_div_mod]
  rcases Nat.mod_two_eq_zero_or_one (x / 2 ^ 23) with h | h <;> simp [h]

lemma decode_canon (e m : Nat) (he : e < 256) (hm : m < 2 ^ 23) :
    CompactToBig (e * 2 ^ 24 + m) =
      if e ≤ 3 then ((m >>> (8 * (3 - e)) : Nat) : Int)
      else ((m <<< (8 * (e - 3)) : Nat) : Int) := by
  have h1 : (e * 2 ^ 24 + m) &&& 0x007fffff = m := by
    rw [and_mask23]
    omega
  have h2 : (e * 2 ^ 24 + m) &&& 0x00800000 = 0 := by
    rw [and_bit23_eq_zero_iff]
    omega
  have h3 : (e * 2 ^ 24 + m) >>> 24 = e := by
    rw [Nat.shiftRight_eq_div_pow]
    omega
  simp only [CompactToBig, h1, h2, h3]
  simp

lemma mantissaOf_lt (n : Nat) (h0 : 0 < n) (hn : n < 256 ^ 300) :
    mantissaOf n < 2 ^ 24 := by
  obtain ⟨lo, hi⟩ := byteLen_bounds n h0 hn
  unfold mantissaOf
  split
  · rename_i h
    calc n * 2 ^ (8 * (3 - byteLen n))
        < 256 ^ byteLen n * 2 ^ (8 * (3 - byteLen n)) := by
          exact (Nat.mul_lt_mul_right (by positivity)).mpr hi
      _ = 2 ^ (8 * byteLen n) * 2 ^ (8 * (3 - byteLen n)) := by rw [pow256_eq]
      _ = 2 ^ (8 * byteLen n + 8 * (3 - byteLen n)) := by rw [← pow_add]
      _ = 2 ^ 24 := by
          congr 1
          omega
  · rename_i h
    rw [Nat.div_lt_iff_lt_mul (by positivity)]
    calc n < 256 ^ byteLen n := hi
      _ = 2 ^ (8 * byteLen n) := pow256_eq _
      _ = 2 ^ 24 * 2 ^ (8 * (byteLen n - 3)) := by
          rw [← pow_add]
          congr 1
          omega

lemma BigToCompact_pos_eq (n : Nat) (h0 : 0 < n) (hn : n < 256 ^ 300) :
    BigToCompact (n : Int) =
      if mantissaOf n < 2 ^ 23
      then ((byteLen n <<< 24) % 2 ^ 32) ||| mantissaOf n
      else (((byteLen n + 1) <<< 24) % 2 ^ 32) ||| (mantissaOf n >>> 8) := by
  obtain ⟨lo, hi⟩ := byteLen_bounds n h0 hn
  have hM24 : mantissaOf n < 2 ^ 24 := mantissaOf_lt n h0 hn
  have hcast0 : ¬((n : Int) = 0) := by omega
  have hneg : ¬((n : Int) < 0) := by omega
  have hsignbit : mantissaOf n &&& 0x00800000 = 0 ↔ mantissaOf n < 2 ^ 23 := by
    rw [and_bit23_eq_zero_iff]
    omega
  by_cases hble : byteLen n ≤ 3
  · have hsmall : n < 2 ^ 32 := by
      calc n < 256 ^ byteLen n := hi
        _ ≤ 256 ^ 3 := Nat.pow_le_pow_right (by norm_num) hble
        _ < 2 ^ 32 := by norm_num
    have hMeq : mantissaOf n = n * 2 ^ (8 * (3 - byteLen n)) := by
      unfold mantissaOf
      rw [if_pos hble]
    have hMlt32 : n * 2 ^ (8 * (3 - byteLen n)) < 2 ^ 32 := by
      rw [← hMeq]
      omega
    simp only [BigToCompact, if_neg hcast0, if_neg hneg, Int.natAbs_ofNat,
      if_pos hble, Nat.mod_eq_of_lt hsmall, Nat.shiftLeft_eq,
      Nat.mod_eq_of_lt hMlt32, ← hMeq]
    have hMmod : mantissaOf n % 2 ^ 32 = mantissaOf n := Nat.mod_eq_of_lt (by omega)
    rw [hMmod]
    by_cases hMlt : mantissaOf n < 2 ^ 23
    · rw [if_neg (show ¬(mantissaOf n &&& 0x00800000 ≠ 0) from
          fun hc => hc (hsignbit.mpr hMlt)), if_pos hMlt]
    · rw [if_pos (show mantissaOf n &&& 0x00800000 ≠ 0 from
          fun hc => hMlt (hsignbit.mp hc)), if_neg hMlt]
  · have hfd : Int.fdiv (n : Int) (2 ^ (8 * (byteLen n - 3))) =
        ((n / 2 ^ (8 * (byteLen n - 3)) : Nat) : Int) := by
      rw [Int.fdiv_eq_ediv _ (by positivity)]
      rw [Int.ofNat_ediv]
      push_cast
      rfl
    have hMeq : mantissaOf n = n / 2 ^ (8 * (byteLen n - 3)) := by
      unfold mantissaOf
      rw [if_neg hble]
    have hMlt32 : n / 2 ^ (8 * (byteLen n - 3)) < 2 ^ 32 := by
      rw [← hMeq]
      omega
    simp only [BigToCompact, if_neg hcast0, if_neg hneg, Int.natAbs_ofNat,
      if_neg hble, hfd, Nat.mod_eq_of_lt hMlt32, ← hMeq]
    have hMmod : mantissaOf n % 2 ^ 32 = mantissaOf n := Nat.mod_eq_of_lt (by omega)
    rw [hMmod]
    by_cases hMlt : mantissaOf n < 2 ^ 23
    · rw [if_neg (show ¬(mantissaOf n &&& 0x00800000 ≠ 0) from
          fun hc => hc (hsignbit.mpr hMlt)), if_pos hMlt]
    · rw [if_pos (show mantissaOf n &&& 0x00800000 ≠ 0 from
          fun hc => hMlt (hsignbit.mp hc)), if_neg hMlt]

lemma encode_nonorm (v : Nat) (h0 : 0 < v) (hv : v < 256 ^ 300)
    (he : byteLen v < 256) (hM : mantissaOf v < 2 ^ 23) :
    BigToCompact (v : Int) = byteLen v * 2 ^ 24 + mantissaOf v := by
  rw [BigToCompact_pos_eq v h0 hv, if_pos hM, Nat.shiftLeft_eq,
    Nat.mod_eq_of_lt (show byteLen v * 2 ^ 24 < 2 ^ 32 by omega),
    mul_pow_lor_eq_add _ _ 24 (by omega)]

lemma encode_norm (v : Nat) (h0 : 0 < v) (hv : v < 256 ^ 300)
    (he : byteLen v + 1 < 256) (hM : ¬ mantissaOf v < 2 ^ 23) :
    BigToCompact (v : Int) = (byteLen v + 1) * 2 ^ 24 + mantissaOf v / 256 := by
  have hM24 : mantissaOf v < 2 ^ 24 := mantissaOf_lt v h0 hv
  have hshift : mantissaOf v >>> 8 = mantissaOf v / 256 :=
    Nat.shiftRight_eq_div_pow _ 8
  rw [BigToCompact_pos_eq v h0 hv, if_neg hM, Nat.shiftLeft_eq, hshift,
    Nat.mod_eq_of_lt (show (byteLen v + 1) * 2 ^ 24 < 2 ^ 32 by omega),
    mul_pow_lor_eq_add _ _ 24 (by omega)]

lemma lt_256_pow300 (v e : Nat) (he : e ≤ 300) (h : v < 256 ^ e) : v < 256 ^ 300 :=
  lt_of_lt_of_le h (Nat.pow_le_pow_right (by norm_num) he)

lemma roundtrip_canon (e m : Nat) (he1 : 1 ≤ e) (he : e < 256) (hm : m < 2 ^ 23)
    (hmlo : 2 ^ 16 ≤ m) (hz : e ≤ 3 → m % 2 ^ (8 * (3 - e)) = 0) :
    BigToCompact (CompactToBig (e * 2 ^ 24 + m)) = e * 2 ^ 24 + m := by
  rw [decode_canon e m he hm]
  by_cases hble : e ≤ 3
  · rw [if_pos hble, Nat.shiftRight_eq_div_pow]
    have hzz := hz hble
    interval_cases e
    · norm_num at hzz
      show BigToCompact ((m / 65536 : Nat) : Int) = 1 * 2 ^ 24 + m
      have h0q : 0 < m / 65536 := by omega
      have hbl : byteLen (m / 65536) = 1 :=
        byteLen_eq_of_bounds _ 1 (by norm_num) (by norm_num)
          (by norm_num; omega) (by norm_num; omega)
      have hmant : mantissaOf (m / 65536) = m := by
        unfold mantissaOf
        rw [hbl, if_pos (by norm_num)]
        norm_num
        omega
      rw [encode_nonorm _ h0q
        (lt_256_pow300 _ 1 (by norm_num) (by norm_num; omega))
        (by rw [hbl]; norm_num) (by rw [hmant]; omega), hbl, hmant]
    · norm_num at hzz
      show BigToCompact ((m / 256 : Nat) : Int) = 2 * 2 ^ 24 + m
      have h0q : 0 < m / 256 := by omega
      have hbl : byteLen (m / 256) = 2 :=
        byteLen_eq_of_bounds _ 2 (by norm_num) (by norm_num)
          (by norm_num; omega) (by norm_num; omega)
      have hmant : mantissaOf (m / 256) = m := by
        unfold mantissaOf
        rw [hbl, if_pos (by norm_num)]
        norm_num
        omega
      rw [encode_nonorm _ h0q
        (lt_256_pow300 _ 2 (by norm_num) (by norm_num; omega))
        (by rw [hbl]; norm_num) (by rw [hmant]; omega), hbl, hmant]
    · show BigToCompact ((m / 1 : Nat) : Int) = 3 * 2 ^ 24 + m
      rw [Nat.div_one]
      have h0q : 0 < m := by omega
      have hbl : byteLen m = 3 :=
        byteLen_eq_of_bounds _ 3 (by norm_num) (by norm_num)
          (by norm_num; omega) (by norm_num; omega)
      have hmant : mantissaOf m = m := by
        unfold mantissaOf
        rw [hbl, if_pos (by norm_num)]
        norm_num
      rw [encode_nonorm _ h0q
        (lt_256_pow300 _ 3 (by norm_num) (by norm_num; omega))
        (by rw [hbl]; norm_num) (by rw [hmant]; omega), hbl, hmant]
  · rw [if_neg hble, Nat.shiftLeft_eq]
    have hm0 : 0 < m := by omega
    have hupper : m * 2 ^ (8 * (e - 3)) < 256 ^ e := by
      calc m * 2 ^ (8 * (e - 3)) < 2 ^ 23 * 2 ^ (8 * (e - 3)) :=
            (Nat.mul_lt_mul_right (by positivity)).mpr hm
        _ = 2 ^ (23 + 8 * (e - 3)) := by rw [← pow_add]
        _ ≤ 2 ^ (8 * e) := Nat.pow_le_pow_right (by norm_num) (by omega)
        _ = 256 ^ e := (pow256_eq e).symm
    have hlower : 256 ^ (e - 1) ≤ m * 2 ^ (8 * (e - 3)) := by
      calc 256 ^ (e - 1) = 2 ^ (8 * (e - 1)) := pow256_eq _
        _ = 2 ^ (16 + 8 * (e - 3)) := by
            congr 1
            omega
        _ = 2 ^ 16 * 2 ^ (8 * (e - 3)) := by rw [pow_add]
        _ ≤ m * 2 ^ (8 * (e - 3)) := Nat.mul_le_mul_right _ hmlo
    have hbl : byteLen (m * 2 ^ (8 * (e - 3))) = e :=
      byteLen_eq_of_bounds _ e (by omega) (by omega) hlower hupper
    have hmant : mantissaOf (m * 2 ^ (8 * (e - 3))) = m := by
      unfold mantissaOf
      rw [hbl, if_neg hble]
      exact Nat.mul_div_cancel m (by positivity)
    rw [encode_nonorm _ (by positivity)
      (lt_256_pow300 _ e (by omega) hupper)
      (by rw [hbl]; omega) (by rw [hmant]; omega), hbl, hmant]

/-- Claim C4 counterexample: `0x04000001` satisfies the claim's canonical
form (mantissa `1` is non-zero and at most `0x7FFFFF`, sign bit clear),
yet `target_to_compact (compact_to_target 0x04000001) = 0x02010000`:
re-encoding normalises away the leading zero bytes of the mantissa, so
the round trip is not the identity on such compacts. -/
theorem claim_C4_counterexample :
    (0x04000001 : Nat) &&& 0x007fffff ≤ 0x7fffff ∧
    (0x04000001 : Nat) &&& 0x007fffff ≠ 0 ∧
    (0x04000001 : Nat) &&& 0x00800000 = 0 ∧
    BigToCompact (CompactToBig 0x04000001) ≠ 0x04000001 := by
  decide

/-- Claim C4 (amended): the decode-encode round trip is the identity on
a 32-bit compact `x` whose sign bit is clear, whose mantissa's top byte
is non-zero (`0x010000 ≤ mantissa ≤ 0x7FFFFF`), and whose mantissa bits
below `8*(3 - e)` are zero when the exponent `e` is at most 3 (these
two conditions together also rule out `e = 0`).  The original claim's
conditions (mantissa non-zero, at most `0x7FFFFF`, sign clear) are not
enough: a mantissa with a leading zero byte is re-normalised. -/
theorem claim_C4_roundtrip (x : Nat) (hx : x < 2 ^ 32)
    (hsign : x &&& 0x00800000 = 0)
    (hmlo : 0x010000 ≤ x &&& 0x007fffff)
    (hz : x >>> 24 ≤ 3 → (x &&& 0x007fffff) % 2 ^ (8 * (3 - x >>> 24)) = 0) :
    BigToCompact (CompactToBig x) = x := by
  rw [and_mask23] at hmlo hz
  rw [Nat.shiftRight_eq_div_pow] at hz
  rw [and_bit23_eq_zero_iff] at hsign
  have hm23 : x % 2 ^ 23 < 2 ^ 23 := Nat.mod_lt _ (by norm_num)
  have he256 : x / 2 ^ 24 < 256 := by omega
  have he1 : 1 ≤ x / 2 ^ 24 := by
    by_contra h
    have he0 : x / 2 ^ 24 = 0 := by omega
    have hz0 := hz (by omega)
    rw [he0] at hz0
    norm_num at hz0
    omega
  have hrecon : x = x / 2 ^ 24 * 2 ^ 24 + x % 2 ^ 23 := by omega
  calc BigToCompact (CompactToBig x)
      = BigToCompact (CompactToBig (x / 2 ^ 24 * 2 ^ 24 + x % 2 ^ 23)) := by
        rw [← hrecon]
    _ = x / 2 ^ 24 * 2 ^ 24 + x % 2 ^ 23 :=
        roundtrip_canon _ _ he1 he256 hm23 hmlo hz
    _ = x := hrecon.symm

/-- Witness for the amended claim C4 at the spec's scenario S2 input
`0x1b0404cb`. -/
theorem claim_C4_roundtrip_witness :
    ((0x1b0404cb : Nat) < 2 ^ 32 ∧
      (0x1b0404cb : Nat) &&& 0x00800000 = 0 ∧
      0x010000 ≤ (0x1b0404cb : Nat) &&& 0x007fffff) ∧
    BigToCompact (CompactToBig 0x1b0404cb) = 0x1b0404cb :=
  ⟨by decide,
    claim_C4_roundtrip 0x1b0404cb (by decide) (by decide) (by decide)
      (fun h => absurd h (by decide))⟩

lemma c5_err_nonorm (P q s : Nat) (hP : 0 < P) (hs : s < P) (hq16 : 2 ^ 16 ≤ q) :
    q * P ≤ P * q + s ∧ ((P * q + s) - q * P) * 2 ^ 15 < P * q + s := by
  have h1 : q * P = P * q := mul_comm _ _
  constructor
  · omega
  · have h3 : (P * q + s) - q * P = s := by omega
    rw [h3]
    calc s * 2 ^ 15 < P * 2 ^ 15 := (Nat.mul_lt_mul_right (by norm_num)).mpr hs
      _ ≤ P * q := Nat.mul_le_mul_left P (by omega)
      _ ≤ P * q + s := Nat.le_add_right _ _

lemma c5_err_norm (P Q u s : Nat) (hP : 0 < P) (hu : u < 256) (hs : s < P)
    (h23 : 2 ^ 23 ≤ 256 * Q + u) :
    Q * (P * 256) ≤ P * (256 * Q + u) + s ∧
    (P * (256 * Q + u) + s - Q * (P * 256)) * 2 ^ 15 < P * (256 * Q + u) + s := by
  have h1 : Q * (P * 256) = P * (256 * Q) := by ring
  have h2 : P * (256 * Q + u) = P * (256 * Q) + P * u := by ring
  constructor
  · omega
  · have h3 : P * (256 * Q + u) + s - Q * (P * 256) = P * u + s := by omega
    rw [h3]
    have h5 : (P * u + s) * 2 ^ 15 < P * 256 * 2 ^ 15 := by
      have hPu : P * u ≤ P * 255 := Nat.mul_le_mul_left P (by omega)
      exact (Nat.mul_lt_mul_right (by norm_num)).mpr (by omega)
    calc (P * u + s) * 2 ^ 15 < P * 256 * 2 ^ 15 := h5
      _ = P * 2 ^ 23 := by ring
      _ ≤ P * (256 * Q + u) := Nat.mul_le_mul_left P h23
      _ ≤ P * (256 * Q + u) + s := Nat.le_add_right _ _

lemma c5_main (n : Nat) (h0 : 0 < n) (hn : n < 2 ^ 256) :
    ∃ v : Nat, CompactToBig (BigToCompact (n : Int)) = (v : Int) ∧
      v ≤ n ∧ (n - v) * 2 ^ 15 < n := by
  have hn300 : n < 256 ^ 300 :=
    lt_256_pow300 n 32 (by norm_num) (by rw [pow256_eq]; exact hn)
  obtain ⟨lo, hi⟩ := byteLen_bounds n h0 hn300
  have he1 : 1 ≤ byteLen n := byteLen_pos n h0 hn300
  have he32 : byteLen n ≤ 32 := by
    have h32 : 256 ^ (byteLen n - 1) < 256 ^ 32 :=
      lt_of_le_of_lt lo (by rw [pow256_eq]; exact hn)
    have := (Nat.pow_lt_pow_iff_right (by norm_num)).mp h32
    omega
  by_cases hble : byteLen n ≤ 3
  · rcases (show byteLen n = 1 ∨ byteLen n = 2 ∨ byteLen n = 3 by omega)
      with hbl | hbl | hbl
    · have hn256 : n < 256 := by
        have := hi
        rw [hbl] at this
        omega
      have hMeq : mantissaOf n = n * 2 ^ 16 := by
        unfold mantissaOf
        rw [hbl]
        norm_num
      by_cases hMlt : mantissaOf n < 2 ^ 23
      · refine ⟨n, ?_, le_refl n, by omega⟩
        rw [encode_nonorm n h0 hn300 (by omega) hMlt, hbl, hMeq,
          decode_canon 1 (n * 2 ^ 16) (by norm_num) (by rw [hMeq] at hMlt; omega),
          if_pos (by norm_num), Nat.shiftRight_eq_div_pow]
        norm_num
      · refine ⟨n, ?_, le_refl n, by omega⟩
        have hdiv : n * 2 ^ 16 / 256 = n * 256 := by omega
        rw [encode_norm n h0 hn300 (by omega) hMlt, hbl, hMeq, hdiv,
          decode_canon 2 (n * 256) (by norm_num) (by omega),
          if_pos (by norm_num), Nat.shiftRight_eq_div_pow]
        norm_num
    · have hn65536 : n < 65536 := by
        have := hi
        rw [hbl] at this
        omega
      have hMeq : mantissaOf n = n * 2 ^ 8 := by
        unfold mantissaOf
        rw [hbl]
        norm_num
      by_cases hMlt : mantissaOf n < 2 ^ 23
      · refine ⟨n, ?_, le_refl n, by omega⟩
        rw [encode_nonorm n h0 hn300 (by omega) hMlt, hbl, hMeq,
          decode_canon 2 (n * 2 ^ 8) (by norm_num) (by rw [hMeq] at hMlt; omega),
          if_pos (by norm_num), Nat.shiftRight_eq_div_pow]
        norm_num
      · refine ⟨n, ?_, le_refl n, by omega⟩
        have hdiv : n * 2 ^ 8 / 256 = n := by omega
        rw [encode_norm n h0 hn300 (by omega) hMlt, hbl, hMeq, hdiv,
          decode_canon 3 n (by norm_num) (by omega),
          if_pos (by norm_num), Nat.shiftRight_eq_div_pow]
        norm_num
    · have hn2_24 : n < 2 ^ 24 := by
        have := hi
        rw [hbl] at this
        omega
      have hMeq : mantissaOf n = n := by
        unfold mantissaOf
        rw [hbl]
        norm_num
      by_cases hMlt : mantissaOf n < 2 ^ 23
      · refine ⟨n, ?_, le_refl n, by omega⟩
        rw [encode_nonorm n h0 hn300 (by omega) hMlt, hbl, hMeq,
          decode_canon 3 n (by norm_num) (by rw [hMeq] at hMlt; omega),
          if_pos (by norm_num), Nat.shiftRight_eq_div_pow]
        norm_num
      · have h23 : 2 ^ 23 ≤ n := by
          rw [hMeq] at hMlt
          omega
        refine ⟨n / 256 * 256, ?_, by omega, by omega⟩
        rw [encode_norm n h0 hn300 (by omega) hMlt, hbl, hMeq,
          decode_canon 4 (n / 256) (by norm_num) (by omega),
          if_neg (by norm_num), Nat.shiftLeft_eq]
  · have hP0 : 0 < 2 ^ (8 * (byteLen n - 3)) := by positivity
    have hMeq : mantissaOf n = n / 2 ^ (8 * (byteLen n - 3)) := by
      unfold mantissaOf
      rw [if_neg hble]
    have hq_lo : 2 ^ 16 ≤ n / 2 ^ (8 * (byteLen n - 3)) := by
      rw [Nat.le_div_iff_mul_le hP0]
      calc 2 ^ 16 * 2 ^ (8 * (byteLen n - 3))
          = 2 ^ (16 + 8 * (byteLen n - 3)) := by rw [← pow_add]
        _ = 2 ^ (8 * (byteLen n - 1)) := by
            congr 1
            omega
        _ = 256 ^ (byteLen n - 1) := (pow256_eq _).symm
        _ ≤ n := lo
    have hq_hi : n / 2 ^ (8 * (byteLen n - 3)) < 2 ^ 24 := by
      rw [← hMeq]
      exact mantissaOf_lt n h0 hn300
    have hsplit := Nat.div_add_mod n (2 ^ (8 * (byteLen n - 3)))
    by_cases hMlt : mantissaOf n < 2 ^ 23
    · refine ⟨n / 2 ^ (8 * (byteLen n - 3)) * 2 ^ (8 * (byteLen n - 3)), ?_, ?_, ?_⟩
      · rw [encode_nonorm n h0 hn300 (by omega) hMlt, hMeq,
          decode_canon (byteLen n) _ (by omega) (by rw [hMeq] at hMlt; exact hMlt),
          if_neg hble, Nat.shiftLeft_eq]
      · obtain ⟨b1, -⟩ := c5_err_nonorm (2 ^ (8 * (byteLen n - 3)))
          (n / 2 ^ (8 * (byteLen n - 3))) (n % 2 ^ (8 * (byteLen n - 3)))
          hP0 (Nat.mod_lt n hP0) hq_lo
        omega
      · obtain ⟨-, b2⟩ := c5_err_nonorm (2 ^ (8 * (byteLen n - 3)))
          (n / 2 ^ (8 * (byteLen n - 3))) (n % 2 ^ (8 * (byteLen n - 3)))
          hP0 (Nat.mod_lt n hP0) hq_lo
        omega
    · have h23 : 2 ^ 23 ≤ n / 2 ^ (8 * (byteLen n - 3)) := by
        rw [hMeq] at hMlt
        omega
      have hPP : 2 ^ (8 * (byteLen n + 1 - 3)) = 2 ^ (8 * (byteLen n - 3)) * 256 := by
        rw [show 8 * (byteLen n + 1 - 3) = 8 * (byteLen n - 3) + 8 by omega, pow_add]
        norm_num
      have hsplit2 := Nat.div_add_mod (n / 2 ^ (8 * (byteLen n - 3))) 256
      refine ⟨n / 2 ^ (8 * (byteLen n - 3)) / 256 * 2 ^ (8 * (byteLen n + 1 - 3)),
        ?_, ?_, ?_⟩
      · rw [encode_norm n h0 hn300 (by omega) hMlt, hMeq,
          decode_canon (byteLen n + 1) _ (by omega) (by omega),
          if_neg (by omega), Nat.shiftLeft_eq]
      · obtain ⟨b1, -⟩ := c5_err_norm (2 ^ (8 * (byteLen n - 3)))
          (n / 2 ^ (8 * (byteLen n - 3)) / 256) (n / 2 ^ (8 * (byteLen n - 3)) % 256)
          (n % 2 ^ (8 * (byteLen n - 3))) hP0 (Nat.mod_lt _ (by norm_num))
          (Nat.mod_lt n hP0) (by omega)
        rw [hPP]
        have hq_mul : 2 ^ (8 * (byteLen n - 3)) *
            (256 * (n / 2 ^ (8 * (byteLen n - 3)) / 256) +
              n / 2 ^ (8 * (byteLen n - 3)) % 256) =
            2 ^ (8 * (byteLen n - 3)) * (n / 2 ^ (8 * (byteLen n - 3))) := by
          rw [hsplit2]
        omega
      · obtain ⟨-, b2⟩ := c5_err_norm (2 ^ (8 * (byteLen n - 3)))
          (n / 2 ^ (8 * (byteLen n - 3)) / 256) (n / 2 ^ (8 * (byteLen n - 3)) % 256)
          (n % 2 ^ (8 * (byteLen n - 3))) hP0 (Nat.mod_lt _ (by norm_num))
          (Nat.mod_lt n hP0) (by omega)
        rw [hPP]
        have hq_mul : 2 ^ (8 * (byteLen n - 3)) *
            (256 * (n / 2 ^ (8 * (byteLen n - 3)) / 256) +
              n / 2 ^ (8 * (byteLen n - 3)) % 256) =
            2 ^ (8 * (byteLen n - 3)) * (n / 2 ^ (8 * (byteLen n - 3))) := by
          rw [hsplit2]
        omega

/-- Claim C5 counterexample: at `n = 0x80FFFFFF` the round trip loses
`0xFFFF`, a relative error of about `2^-15`: multiplied by `2^23` the
loss strictly exceeds `n`, so the claimed `2^-23` relative-error bound
is false.  (The `≤` part of the claim does hold, as the second conjunct
shows.) -/
theorem claim_C5_counterexample :
    (0 : Int) < 0x80FFFFFF ∧
    CompactToBig (BigToCompact (0x80FFFFFF : Int)) ≤ (0x80FFFFFF : Int) ∧
    ((0x80FFFFFF : Int) - CompactToBig (BigToCompact (0x80FFFFFF : Int))) * 2 ^ 23 >
      (0x80FFFFFF : Int) := by
  decide

/-- Claim C5 (amended): for every positive `n` below `2^256`,
`compact_to_target (target_to_compact n) ≤ n`, and the relative error is
bounded by `2^-15` (not `2^-23`): mantissa normalisation can leave only
15 significant bits, so `(n - result) * 2^15 < n` is the tight form. -/
theorem claim_C5_error_bound (n : Nat) (h0 : 0 < n) (hn : n < 2 ^ 256) :
    CompactToBig (BigToCompact (n : Int)) ≤ (n : Int) ∧
    ((n : Int) - CompactToBig (BigToCompact (n : Int))) * 2 ^ 15 < (n : Int) := by
  obtain ⟨v, hv, hvle, hlt⟩ := c5_main n h0 hn
  rw [hv]
  constructor
  · exact_mod_cast hvle
  · rw [show ((n : Int) - (v : Int)) = ((n - v : Nat) : Int) from
      (Nat.cast_sub hvle).symm]
    exact_mod_cast hlt

/-- Witness for the amended claim C5 at `n = 0x80FFFFFF`, where the
bound is nearly attained. -/
theorem claim_C5_error_bound_witness :
    (0 < 0x80FFFFFF ∧ (0x80FFFFFF : Nat) < 2 ^ 256) ∧
    CompactToBig (BigToCompact ((0x80FFFFFF : Nat) : Int)) ≤ ((0x80FFFFFF : Nat) : Int) ∧
    (((0x80FFFFFF : Nat) : Int) -
        CompactToBig (BigToCompact ((0x80FFFFFF : Nat) : Int))) * 2 ^ 15 <
      ((0x80FFFFFF : Nat) : Int) :=
  ⟨by decide, claim_C5_error_bound 0x80FFFFFF (by decide) (by decide)⟩

lemma intSign_nonpos_iff (a : Int) : a.sign ≤ 0 ↔ a ≤ 0 := by
  rcases lt_trichotomy a 0 with h | h | h
  · simp [Int.sign_eq_neg_one_of_neg h]
    omega
  · simp [h]
  · simp [Int.sign_eq_one_of_pos h]
    omega

/-- Claim C9: `calc_work` returns `0` exactly when the decoded target is
non-positive, and otherwise the floor of `2^256 / (target + 1)`. -/
theorem claim_C9_calc_work (bits : Nat) :
    CalcWork bits =
      if CompactToBig bits ≤ 0 then 0
      else (2 ^ 256 : Int) / (CompactToBig bits + 1) := by
  unfold CalcWork oneLsh256
  by_cases h : CompactToBig bits ≤ 0
  · rw [if_pos ((intSign_nonpos_iff _).mpr h), if_pos h]
  · rw [if_neg (fun hc => h ((intSign_nonpos_iff _).mp hc)), if_neg h]

/-- The dispatcher agrees with the spec's first-match rule list: its
result is exactly the selected algorithm applied to the tip, used by the
dispatch claims. -/
lemma dispatch_eq (lastNode : List Header) (newBlockTime : Int) (c : ChainCtx) :
    calcNextRequiredDifficulty lastNode newBlockTime c =
      match dispatchRule lastNode c with
      | .fixedPowLimit => .ok c.params.powLimitBits
      | .asert => calcNextRequiredDifficultyASERT lastNode c
      | .lwmav2 => calcNextRequiredDifficultyLWMAv2 lastNode c
      | .lwma => calcNextRequiredDifficultyLWMA lastNode c
      | .legacy => legacyRetarget lastNode newBlockTime c := by
  unfold calcNextRequiredDifficulty dispatchRule
  by_cases hpnr : c.params.powNoRetargeting
  · simp [hpnr]
  · cases lastNode with
    | nil => simp [hpnr]
    | cons last rest =>
      by_cases h1 : c.params.asertHeight > 0 ∧ last.height + 1 > c.params.asertHeight
      · simp [hpnr, h1]
      · by_cases h2 : c.params.lwmaFixHeight > 0 ∧
            last.height + 1 ≥ c.params.lwmaFixHeight
        · simp [hpnr, h1, h2]
        · by_cases h3 : c.params.lwmaHeight > 0 ∧
              last.height + 1 ≥ c.params.lwmaHeight
          · simp [hpnr, h1, h2, h3]
          · simp [hpnr, h1, h2, h3]

/-- Claim C2: the dispatcher selects its algorithm by the spec's
first-match rule list over `next = h + 1` (ASERT strictly after its
activation height, the LWMA variants from theirs on, `PowLimitBits` for
no-retargeting or a missing tip), and runs exactly that algorithm. -/
theorem claim_C2_dispatch_rules (lastNode : List Header) (newBlockTime : Int)
    (c : ChainCtx) :
    calcNextRequiredDifficulty lastNode newBlockTime c =
      match dispatchRule lastNode c with
      | .fixedPowLimit => .ok c.params.powLimitBits
      | .asert => calcNextRequiredDifficultyASERT lastNode c
      | .lwmav2 => calcNextRequiredDifficultyLWMAv2 lastNode c
      | .lwma => calcNextRequiredDifficultyLWMA lastNode c
      | .legacy => legacyRetarget lastNode newBlockTime c :=
  dispatch_eq lastNode newBlockTime c

/-- Claim C10: when the dispatcher selects ASERT, LWMA v2 or LWMA v1,
the result does not depend on the proposed block's timestamp (which
only the legacy path reads). -/
theorem claim_C10_timestamp_independence (lastNode : List Header) (t1 t2 : Int)
    (c : ChainCtx)
    (h : dispatchRule lastNode c = .asert ∨ dispatchRule lastNode c = .lwmav2 ∨
      dispatchRule lastNode c = .lwma) :
    calcNextRequiredDifficulty lastNode t1 c =
      calcNextRequiredDifficulty lastNode t2 c := by
  rw [dispatch_eq lastNode t1 c, dispatch_eq lastNode t2 c]
  rcases h with h | h | h <;> rw [h]

/-- Claim C6: on a chain whose parent links end before reaching
`ASERTHeight`, the Go anchor loop assigns `anchor = nil` and then calls
`anchor.Height()` — a nil-pointer dereference (modelled `crash`), not
the `AssertError` the claim specifies.  Only the second scenario — the
anchor located but parentless — actually returns the `AssertError`.
Both dispatch to ASERT (tip heights 10 and 5, activation height 5). -/
theorem claim_C6_missing_anchor_behaviour :
    dispatchRule [⟨10, 1000, 0x1d00ffff⟩]
        ⟨⟨2 ^ 255, 0x207fffff, false, 400000000000, 100000000000, 4, false, 0,
          0, 0, 45, 5, 3600, 0x1d00ffff⟩, 4, 1, 1000000⟩ = .asert ∧
    calcNextRequiredDifficulty [⟨10, 1000, 0x1d00ffff⟩] 0
        ⟨⟨2 ^ 255, 0x207fffff, false, 400000000000, 100000000000, 4, false, 0,
          0, 0, 45, 5, 3600, 0x1d00ffff⟩, 4, 1, 1000000⟩ =
      .crash "nil pointer dereference" ∧
    dispatchRule [⟨5, 1000, 0x1d00ffff⟩]
        ⟨⟨2 ^ 255, 0x207fffff, false, 400000000000, 100000000000, 4, false, 0,
          0, 0, 45, 5, 3600, 0x1d00ffff⟩, 4, 1, 1000000⟩ = .asert ∧
    calcNextRequiredDifficulty [⟨5, 1000, 0x1d00ffff⟩] 0
        ⟨⟨2 ^ 255, 0x207fffff, false, 400000000000, 100000000000, 4, false, 0,
          0, 0, 45, 5, 3600, 0x1d00ffff⟩, 4, 1, 1000000⟩ =
      .assertErr "ASERT anchor block has no parent" := by
  decide

lemma lwmaWalk_sumW_nonneg (T : Int) :
    ∀ (i : Nat) (ch : List Header), 0 ≤ (lwmaWalk T ch i).2 := by
  intro i
  induction i with
  | zero =>
    intro ch
    rcases ch with _ | ⟨a, _ | ⟨b, t⟩⟩ <;> simp [lwmaWalk]
  | succ i ih =>
    intro ch
    rcases ch with _ | ⟨a, _ | ⟨b, t⟩⟩
    · simp [lwmaWalk]
    · simp [lwmaWalk]
    · simp [lwmaWalk]
      have := ih (b :: t)
      omega

/-- Claim C7 counterexample: LWMA v1 selected, window count 10 ≥ 3, but
the tip has no parent at all: the walk exits immediately with zero
weight sums, `expectedWeightedSolvetimes` is `0`, and the Go
`big.Int.Div` panics (division by zero) instead of returning a compact
target. -/
theorem claim_C7_counterexample :
    dispatchRule [⟨20, 1000, 0x1d00ffff⟩]
        ⟨⟨2 ^ 255, 0x207fffff, false, 400000000000, 100000000000, 4, false, 0,
          1, 0, 10, 0, 3600, 0x1d00ffff⟩, 4, 1, 1000000⟩ = .lwma ∧
    (3 : Int) ≤ min ((20 : Int) + 1 - 1) 10 ∧
    calcNextRequiredDifficulty [⟨20, 1000, 0x1d00ffff⟩] 0
        ⟨⟨2 ^ 255, 0x207fffff, false, 400000000000, 100000000000, 4, false, 0,
          1, 0, 10, 0, 3600, 0x1d00ffff⟩, 4, 1, 1000000⟩ =
      .crash "division by zero" := by
  decide

/-- Claim C7 (amended): with window count at least 3, a positive block
time `T`, and at least one parent present (so at least one solvetime is
sampled), LWMA v1 returns a compact target even when the backward walk
stops early at a missing parent; the unguarded division-by-zero case is
exactly the one where the very first parent is missing. -/
theorem claim_C7_early_stop_ok (last p : Header) (rest : List Header) (c : ChainCtx)
    (hT : 1 ≤ Int.tdiv c.params.targetTimePerBlock 1000000000)
    (hb3 : 3 ≤ min (last.height + 1 - c.params.lwmaHeight) c.params.lwmaWindow) :
    (calcNextRequiredDifficultyLWMA (last :: p :: rest) c).isOk = true := by
  have hmin : (if last.height + 1 - c.params.lwmaHeight > c.params.lwmaWindow
      then c.params.lwmaWindow else last.height + 1 - c.params.lwmaHeight) =
      min (last.height + 1 - c.params.lwmaHeight) c.params.lwmaWindow := by
    split <;> omega
  simp only [calcNextRequiredDifficultyLWMA]
  rw [hmin, if_neg (show ¬ (min (last.height + 1 - c.params.lwmaHeight)
    c.params.lwmaWindow < 3) by omega)]
  obtain ⟨k, hk⟩ : ∃ k, (min (last.height + 1 - c.params.lwmaHeight)
      c.params.lwmaWindow).toNat = k + 1 :=
    ⟨(min (last.height + 1 - c.params.lwmaHeight) c.params.lwmaWindow).toNat - 1,
      by omega⟩
  have hw : 0 < (lwmaWalk (Int.tdiv c.params.targetTimePerBlock 1000000000)
      (last :: p :: rest)
      (min (last.height + 1 - c.params.lwmaHeight) c.params.lwmaWindow).toNat).2 := by
    rw [hk]
    simp [lwmaWalk]
    have := lwmaWalk_sumW_nonneg
      (Int.tdiv c.params.targetTimePerBlock 1000000000) k (p :: rest)
    omega
  rw [if_neg (show ¬ ((lwmaWalk (Int.tdiv c.params.targetTimePerBlock 1000000000)
      (last :: p :: rest)
      (min (last.height + 1 - c.params.lwmaHeight) c.params.lwmaWindow).toNat).2 *
      Int.tdiv c.params.targetTimePerBlock 1000000000 = 0) from by
    have := mul_pos hw (show (0 : Int) <
      Int.tdiv c.params.targetTimePerBlock 1000000000 by omega)
    omega)]
  rfl

/-- Witness for the amended claim C7: a two-header chain (the walk
stops after one sample because the second header has no parent) still
yields a compact target. -/
theorem claim_C7_early_stop_ok_witness :
    ((1 : Int) ≤ Int.tdiv (100000000000 : Int) 1000000000 ∧
      (3 : Int) ≤ min ((20 : Int) + 1 - 1) 10) ∧
    (calcNextRequiredDifficultyLWMA
        [⟨20, 1000, 0x1d00ffff⟩, ⟨19, 900, 0x1d00ffff⟩]
        ⟨⟨2 ^ 255, 0x207fffff, false, 400000000000, 100000000000, 4, false, 0,
          1, 0, 10, 0, 3600, 0x1d00ffff⟩, 4, 1, 1000000⟩).isOk = true :=
  ⟨by decide,
    claim_C7_early_stop_ok ⟨20, 1000, 0x1d00ffff⟩ ⟨19, 900, 0x1d00ffff⟩ []
      ⟨⟨2 ^ 255, 0x207fffff, false, 400000000000, 100000000000, 4, false, 0,
        1, 0, 10, 0, 3600, 0x1d00ffff⟩, 4, 1, 1000000⟩
      (by decide) (by decide)⟩

/-- Claim C1 counterexample: with `BlocksPerRetarget = 4`, tip height 7
(a retarget boundary that is not the first-ever retarget, since
`h + 1 = 8 ≠ 4`), the legacy algorithm's result differs from the result
computed from the ancestor `BlocksPerRetarget - 1 = 3` generations back:
the code walks the full `BlocksPerRetarget` generations in this case,
the opposite of what the claim states. -/
theorem claim_C1_counterexample :
    ((7 : Int) + 1).tmod 4 = 0 ∧ (7 : Int) + 1 ≠ 4 ∧
    legacyRetarget
        [⟨7, 1000, 0x1d00ffff⟩, ⟨6, 900, 0x1d00ffff⟩, ⟨5, 800, 0x1d00ffff⟩,
          ⟨4, 400, 0x1d00ffff⟩, ⟨3, 0, 0x1d00ffff⟩, ⟨2, -100, 0x1d00ffff⟩,
          ⟨1, -200, 0x1d00ffff⟩, ⟨0, -300, 0x1d00ffff⟩] 0
        ⟨⟨2 ^ 255, 0x207fffff, false, 400000000000, 100000000000, 4, false, 0,
          0, 0, 45, 0, 3600, 0x1d00ffff⟩, 4, 1, 1000000⟩ ≠
      legacyFromFirst
        [⟨7, 1000, 0x1d00ffff⟩, ⟨6, 900, 0x1d00ffff⟩, ⟨5, 800, 0x1d00ffff⟩,
          ⟨4, 400, 0x1d00ffff⟩, ⟨3, 0, 0x1d00ffff⟩, ⟨2, -100, 0x1d00ffff⟩,
          ⟨1, -200, 0x1d00ffff⟩, ⟨0, -300, 0x1d00ffff⟩]
        ⟨⟨2 ^ 255, 0x207fffff, false, 400000000000, 100000000000, 4, false, 0,
          0, 0, 45, 0, 3600, 0x1d00ffff⟩, 4, 1, 1000000⟩
        (relativeAncestorCtx
          [⟨7, 1000, 0x1d00ffff⟩, ⟨6, 900, 0x1d00ffff⟩, ⟨5, 800, 0x1d00ffff⟩,
            ⟨4, 400, 0x1d00ffff⟩, ⟨3, 0, 0x1d00ffff⟩, ⟨2, -100, 0x1d00ffff⟩,
            ⟨1, -200, 0x1d00ffff⟩, ⟨0, -300, 0x1d00ffff⟩] 3) := by
  decide

/-- Claim C1 (amended): at a retarget boundary the legacy algorithm's
window start is the ancestor `BlocksPerRetarget` generations back,
except on the first-ever retarget (`h + 1 = BlocksPerRetarget`), where
it is `BlocksPerRetarget - 1` generations back — the reverse of the
claimed assignment of the two distances. -/
theorem claim_C1_window_walkback (last : Header) (rest : List Header) (t : Int)
    (c : ChainCtx) (hbpr : 0 < c.blocksPerRetarget)
    (hbound : (last.height + 1).tmod c.blocksPerRetarget = 0) :
    legacyRetarget (last :: rest) t c =
      legacyFromFirst (last :: rest) c
        (relativeAncestorCtx (last :: rest)
          (if last.height + 1 = c.blocksPerRetarget
           then (c.blocksPerRetarget - 1).toNat
           else c.blocksPerRetarget.toNat)) := by
  simp only [legacyRetarget]
  rw [if_neg (show ¬ c.blocksPerRetarget = 0 by omega),
    if_neg (show ¬ ((last.height + 1).tmod c.blocksPerRetarget ≠ 0) from
      fun h => h hbound)]
  by_cases hf : last.height + 1 = c.blocksPerRetarget
  · rw [if_neg (show ¬ (last.height + 1 ≠ c.blocksPerRetarget) from fun h => h hf),
      if_neg (show ¬ (c.blocksPerRetarget - 1 < 0) by omega), if_pos hf]
  · rw [if_pos hf, if_neg (show ¬ (c.blocksPerRetarget < 0) by omega), if_neg hf]

/-- Witness for the amended claim C1 on the counterexample chain: the
result equals the computation from the ancestor a full
`BlocksPerRetarget` generations back. -/
theorem claim_C1_window_walkback_witness :
    ((0 : Int) < 4 ∧ ((7 : Int) + 1).tmod 4 = 0) ∧
    legacyRetarget
        [⟨7, 1000, 0x1d00ffff⟩, ⟨6, 900, 0x1d00ffff⟩, ⟨5, 800, 0x1d00ffff⟩,
          ⟨4, 400, 0x1d00ffff⟩, ⟨3, 0, 0x1d00ffff⟩, ⟨2, -100, 0x1d00ffff⟩,
          ⟨1, -200, 0x1d00ffff⟩, ⟨0, -300, 0x1d00ffff⟩] 0
        ⟨⟨2 ^ 255, 0x207fffff, false, 400000000000, 100000000000, 4, false, 0,
          0, 0, 45, 0, 3600, 0x1d00ffff⟩, 4, 1, 1000000⟩ =
      legacyFromFirst
        [⟨7, 1000, 0x1d00ffff⟩, ⟨6, 900, 0x1d00ffff⟩, ⟨5, 800, 0x1d00ffff⟩,
          ⟨4, 400, 0x1d00ffff⟩, ⟨3, 0, 0x1d00ffff⟩, ⟨2, -100, 0x1d00ffff⟩,
          ⟨1, -200, 0x1d00ffff⟩, ⟨0, -300, 0x1d00ffff⟩]
        ⟨⟨2 ^ 255, 0x207fffff, false, 400000000000, 100000000000, 4, false, 0,
          0, 0, 45, 0, 3600, 0x1d00ffff⟩, 4, 1, 1000000⟩
        (relativeAncestorCtx
          [⟨7, 1000, 0x1d00ffff⟩, ⟨6, 900, 0x1d00ffff⟩, ⟨5, 800, 0x1d00ffff⟩,
            ⟨4, 400, 0x1d00ffff⟩, ⟨3, 0, 0x1d00ffff⟩, ⟨2, -100, 0x1d00ffff⟩,
            ⟨1, -200, 0x1d00ffff⟩, ⟨0, -300, 0x1d00ffff⟩]
          (if (7 : Int) + 1 = 4 then ((4 : Int) - 1).toNat else (4 : Int).toNat)) :=
  ⟨by decide,
    claim_C1_window_walkback ⟨7, 1000, 0x1d00ffff⟩
      [⟨6, 900, 0x1d00ffff⟩, ⟨5, 800, 0x1d00ffff⟩, ⟨4, 400, 0x1d00ffff⟩,
        ⟨3, 0, 0x1d00ffff⟩, ⟨2, -100, 0x1d00ffff⟩, ⟨1, -200, 0x1d00ffff⟩,
        ⟨0, -300, 0x1d00ffff⟩] 0
      ⟨⟨2 ^ 255, 0x207fffff, false, 400000000000, 100000000000, 4, false, 0,
        0, 0, 45, 0, 3600, 0x1d00ffff⟩, 4, 1, 1000000⟩
      (by decide) (by decide)⟩

/-- Claim C3: an ASERT invocation whose schedule deviation
`Δt - T·Δh` equals exactly the halflife (anchor located with a parent,
positive anchor target) returns the compact encoding of twice the
anchor target, clamped to `PowLimit`: the fixed-point exponent is
exactly `2^16`, the cubic correction is skipped (`frac = 0`), and one
left shift doubles the target. -/
theorem claim_C3_asert_halflife_doubles (last : Header) (rest : List Header)
    (c : ChainCtx) (anc ap : Header) (arest : List Header)
    (hanchor : findAnchor c.params.asertHeight (last :: rest) =
      some (anc :: ap :: arest))
    (hhl : 0 < c.params.asertHalfLife)
    (hat : 0 < CompactToBig c.params.asertAnchorBits)
    (heq : last.timestamp - ap.timestamp -
        Int.tdiv c.params.targetTimePerBlock 1000000000 *
          (last.height + 1 - c.params.asertHeight) = c.params.asertHalfLife) :
    calcNextRequiredDifficultyASERT (last :: rest) c =
      .ok (BigToCompact
        (min (2 * CompactToBig c.params.asertAnchorBits) c.params.powLimit)) := by
  simp only [calcNextRequiredDifficultyASERT, hanchor]
  rw [if_neg (show ¬ c.params.asertHalfLife = 0 by omega), heq,
    Int.mul_tdiv_cancel_left 65536 (show c.params.asertHalfLife ≠ 0 by omega)]
  rw [if_pos (show (65536 : Int) ≥ 0 by norm_num)]
  norm_num
  rw [show (Int.toNat 65536 % 65536) = 0 from by decide]
  norm_num
  simp only [finishASERT]
  rw [if_neg (show ¬ (CompactToBig c.params.asertAnchorBits * 2 = 0) by omega)]
  have hmin : (if CompactToBig c.params.asertAnchorBits * 2 > c.params.powLimit
      then c.params.powLimit
      else CompactToBig c.params.asertAnchorBits * 2) =
      min (2 * CompactToBig c.params.asertAnchorBits) c.params.powLimit := by
    split <;> omega
  rw [hmin]

/-- Witness for claim C3: a six-header chain with anchor at height 5,
`T = 100 s`, halflife 3600 s, and tip timestamp making the deviation
exactly one halflife; the result doubles the anchor target. -/
theorem claim_C3_asert_halflife_doubles_witness :
    (findAnchor (5 : Int)
        [⟨9, 4100, 0x1d00ffff⟩, ⟨8, 3000, 0x1d00ffff⟩, ⟨7, 2000, 0x1d00ffff⟩,
          ⟨6, 1500, 0x1d00ffff⟩, ⟨5, 100, 0x1d00ffff⟩, ⟨4, 0, 0x1d00ffff⟩] =
        some [⟨5, 100, 0x1d00ffff⟩, ⟨4, 0, 0x1d00ffff⟩] ∧
      (0 : Int) < 3600 ∧ 0 < CompactToBig 0x1d00ffff ∧
      (4100 : Int) - 0 - Int.tdiv 100000000000 1000000000 * (9 + 1 - 5) = 3600) ∧
    calcNextRequiredDifficultyASERT
        [⟨9, 4100, 0x1d00ffff⟩, ⟨8, 3000, 0x1d00ffff⟩, ⟨7, 2000, 0x1d00ffff⟩,
          ⟨6, 1500, 0x1d00ffff⟩, ⟨5, 100, 0x1d00ffff⟩, ⟨4, 0, 0x1d00ffff⟩]
        ⟨⟨2 ^ 255, 0x207fffff, false, 400000000000, 100000000000, 4, false, 0,
          0, 0, 45, 5, 3600, 0x1d00ffff⟩, 4, 1, 1000000⟩ =
      .ok (BigToCompact (min (2 * CompactToBig 0x1d00ffff) (2 ^ 255))) :=
  ⟨by decide,
    claim_C3_asert_halflife_doubles ⟨9, 4100, 0x1d00ffff⟩
      [⟨8, 3000, 0x1d00ffff⟩, ⟨7, 2000, 0x1d00ffff⟩, ⟨6, 1500, 0x1d00ffff⟩,
        ⟨5, 100, 0x1d00ffff⟩, ⟨4, 0, 0x1d00ffff⟩]
      ⟨⟨2 ^ 255, 0x207fffff, false, 400000000000, 100000000000, 4, false, 0,
        0, 0, 45, 5, 3600, 0x1d00ffff⟩, 4, 1, 1000000⟩
      ⟨5, 100, 0x1d00ffff⟩ ⟨4, 0, 0x1d00ffff⟩ []
      (by decide) (by decide) (by decide) (by decide)⟩

/-- Witness for claim C10: an ASERT-selected tip gives the same result
for two different proposed timestamps. -/
theorem claim_C10_timestamp_independence_witness :
    (dispatchRule [⟨10, 1000, 0x1d00ffff⟩]
        ⟨⟨2 ^ 255, 0x207fffff, false, 400000000000, 100000000000, 4, false, 0,
          0, 0, 45, 5, 3600, 0x1d00ffff⟩, 4, 1, 1000000⟩ = .asert ∨
      dispatchRule [⟨10, 1000, 0x1d00ffff⟩]
        ⟨⟨2 ^ 255, 0x207fffff, false, 400000000000, 100000000000, 4, false, 0,
          0, 0, 45, 5, 3600, 0x1d00ffff⟩, 4, 1, 1000000⟩ = .lwmav2 ∨
      dispatchRule [⟨10, 1000, 0x1d00ffff⟩]
        ⟨⟨2 ^ 255, 0x207fffff, false, 400000000000, 100000000000, 4, false, 0,
          0, 0, 45, 5, 3600, 0x1d00ffff⟩, 4, 1, 1000000⟩ = .lwma) ∧
    calcNextRequiredDifficulty [⟨10, 1000, 0x1d00ffff⟩] 5
        ⟨⟨2 ^ 255, 0x207fffff, false, 400000000000, 100000000000, 4, false, 0,
          0, 0, 45, 5, 3600, 0x1d00ffff⟩, 4, 1, 1000000⟩ =
      calcNextRequiredDifficulty [⟨10, 1000, 0x1d00ffff⟩] 99999
        ⟨⟨2 ^ 255, 0x207fffff, false, 400000000000, 100000000000, 4, false, 0,
          0, 0, 45, 5, 3600, 0x1d00ffff⟩, 4, 1, 1000000⟩ :=
  ⟨Or.inl (by decide),
    claim_C10_timestamp_independence [⟨10, 1000, 0x1d00ffff⟩] 5 99999
      ⟨⟨2 ^ 255, 0x207fffff, false, 400000000000, 100000000000, 4, false, 0,
        0, 0, 45, 5, 3600, 0x1d00ffff⟩, 4, 1, 1000000⟩
      (Or.inl (by decide))⟩

lemma clampSolve_self (T : Int) (hT : 1 ≤ T) : clampSolve T T = T := by
  simp only [clampSolve]
  rw [if_neg (show ¬ T < 1 by omega), if_neg (show ¬ T > 6 * T by omega)]

lemma triSum_nonneg : ∀ i : Nat, 0 ≤ triSum i := by
  intro i
  induction i with
  | zero => simp [triSum]
  | succ i ih =>
    simp only [triSum]
    omega

lemma triSum_pos (i : Nat) (h : 0 < i) : 0 < triSum i := by
  obtain ⟨k, rfl⟩ := Nat.exists_eq_succ_of_ne_zero (show i ≠ 0 by omega)
  have := triSum_nonneg k
  simp only [triSum]
  omega

lemma lwmaWalk_uniform (T : Int) (hT : 1 ≤ T) :
    ∀ (i : Nat) (ch : List Header), uniformSolve T ch i = true →
      lwmaWalk T ch i = (T * triSum i, triSum i) := by
  intro i
  induction i with
  | zero =>
    intro ch h
    rcases ch with _ | ⟨a, _ | ⟨b, t⟩⟩ <;> simp [lwmaWalk, triSum]
  | succ i ih =>
    intro ch h
    rcases ch with _ | ⟨a, _ | ⟨b, t⟩⟩
    · simp [uniformSolve] at h
    · simp [uniformSolve] at h
    · simp only [uniformSolve, Bool.and_eq_true, beq_iff_eq] at h
      obtain ⟨h1, h2⟩ := h
      simp only [lwmaWalk, ih (b :: t) h2, h1, clampSolve_self T hT, triSum]
      have hr : T * triSum i + T * ((i : Int) + 1) =
          T * (triSum i + ((i : Int) + 1)) := by ring
      rw [hr]

/-- Claim C8: LWMA v2 with a full window (window count equal to
`LWMAWindow`, all ancestors present) in which every sampled solvetime
equals `T` exactly returns the compact encoding of the window-start
block's target (positive and within `PowLimit`): the weighted sum
equals its expectation, the 3x caps are inert, and the division cancels,
leaving the reference target unchanged — the steady-state fixed point. -/
theorem claim_C8_lwmav2_fixed_point (last : Header) (rest : List Header)
    (c : ChainCtx)
    (hT : 1 ≤ Int.tdiv c.params.targetTimePerBlock 1000000000)
    (hN3 : 3 ≤ c.params.lwmaWindow)
    (hfull : c.params.lwmaWindow ≤ last.height + 1 - c.params.lwmaHeight)
    (huni : uniformSolve (Int.tdiv c.params.targetTimePerBlock 1000000000)
        (last :: rest) c.params.lwmaWindow.toNat = true)
    (hpos : 0 < CompactToBig (headBits (windowStartWalk (last :: rest)
        c.params.lwmaWindow.toNat)))
    (hlim : CompactToBig (headBits (windowStartWalk (last :: rest)
        c.params.lwmaWindow.toNat)) ≤ c.params.powLimit) :
    calcNextRequiredDifficultyLWMAv2 (last :: rest) c =
      .ok (BigToCompact (CompactToBig (headBits (windowStartWalk (last :: rest)
        c.params.lwmaWindow.toNat)))) := by
  have hblocks : (if last.height + 1 - c.params.lwmaHeight > c.params.lwmaWindow
      then c.params.lwmaWindow else last.height + 1 - c.params.lwmaHeight) =
      c.params.lwmaWindow := by
    split <;> omega
  have hTpos : (0 : Int) < Int.tdiv c.params.targetTimePerBlock 1000000000 := by
    omega
  have htri : 0 < triSum c.params.lwmaWindow.toNat := triSum_pos _ (by omega)
  have hcomm : Int.tdiv c.params.targetTimePerBlock 1000000000 *
      triSum c.params.lwmaWindow.toNat =
      triSum c.params.lwmaWindow.toNat *
        Int.tdiv c.params.targetTimePerBlock 1000000000 := mul_comm _ _
  have hexp_pos : (0 : Int) < triSum c.params.lwmaWindow.toNat *
      Int.tdiv c.params.targetTimePerBlock 1000000000 := mul_pos htri hTpos
  have h31 : Int.tdiv (triSum c.params.lwmaWindow.toNat *
      Int.tdiv c.params.targetTimePerBlock 1000000000) 3 ≤
      triSum c.params.lwmaWindow.toNat *
        Int.tdiv c.params.targetTimePerBlock 1000000000 := by
    rw [Int.tdiv_eq_ediv (by omega) (by norm_num)]
    omega
  simp only [calcNextRequiredDifficultyLWMAv2]
  rw [hblocks, if_neg (show ¬ c.params.lwmaWindow < 3 by omega),
    lwmaWalk_uniform _ hT _ _ huni]
  rw [if_neg (show ¬ ((Int.tdiv c.params.targetTimePerBlock 1000000000 *
      triSum c.params.lwmaWindow.toNat,
      triSum c.params.lwmaWindow.toNat).1 <
      Int.tdiv ((Int.tdiv c.params.targetTimePerBlock 1000000000 *
        triSum c.params.lwmaWindow.toNat,
        triSum c.params.lwmaWindow.toNat).2 *
        Int.tdiv c.params.targetTimePerBlock 1000000000) 3) from by
    simp only []
    omega)]
  rw [if_neg (show ¬ ((Int.tdiv c.params.targetTimePerBlock 1000000000 *
      triSum c.params.lwmaWindow.toNat,
      triSum c.params.lwmaWindow.toNat).1 >
      (Int.tdiv c.params.targetTimePerBlock 1000000000 *
        triSum c.params.lwmaWindow.toNat,
        triSum c.params.lwmaWindow.toNat).2 *
        Int.tdiv c.params.targetTimePerBlock 1000000000 * 3) from by
    simp only []
    omega)]
  rw [if_neg (show ¬ ((Int.tdiv c.params.targetTimePerBlock 1000000000 *
      triSum c.params.lwmaWindow.toNat,
      triSum c.params.lwmaWindow.toNat).2 *
      Int.tdiv c.params.targetTimePerBlock 1000000000 = 0) from by
    simp only []
    omega)]
  simp only [hcomm]
  rw [Int.mul_ediv_cancel _ (show triSum c.params.lwmaWindow.toNat *
    Int.tdiv c.params.targetTimePerBlock 1000000000 ≠ 0 by omega)]
  rw [if_neg (show ¬ (CompactToBig (headBits (windowStartWalk (last :: rest)
    c.params.lwmaWindow.toNat)) > c.params.powLimit) by omega)]

/-- Witness for claim C8: a five-header chain, window 3, all solvetimes
100 s with `T = 100 s`; the result re-encodes the window-start target. -/
theorem claim_C8_lwmav2_fixed_point_witness :
    ((1 : Int) ≤ Int.tdiv 100000000000 1000000000 ∧
      (3 : Int) ≤ 3 ∧ (3 : Int) ≤ (10 : Int) + 1 - 1 ∧
      uniformSolve (Int.tdiv 100000000000 1000000000)
        [⟨10, 1000, 0x1c00ffff⟩, ⟨9, 900, 0x1c010000⟩, ⟨8, 800, 0x1c020000⟩,
          ⟨7, 700, 0x1b00ffff⟩, ⟨6, 600, 0x1d00aaaa⟩] (3 : Int).toNat = true ∧
      0 < CompactToBig (headBits (windowStartWalk
        [⟨10, 1000, 0x1c00ffff⟩, ⟨9, 900, 0x1c010000⟩, ⟨8, 800, 0x1c020000⟩,
          ⟨7, 700, 0x1b00ffff⟩, ⟨6, 600, 0x1d00aaaa⟩] (3 : Int).toNat)) ∧
      CompactToBig (headBits (windowStartWalk
        [⟨10, 1000, 0x1c00ffff⟩, ⟨9, 900, 0x1c010000⟩, ⟨8, 800, 0x1c020000⟩,
          ⟨7, 700, 0x1b00ffff⟩, ⟨6, 600, 0x1d00aaaa⟩] (3 : Int).toNat)) ≤ 2 ^ 255) ∧
    calcNextRequiredDifficultyLWMAv2
        [⟨10, 1000, 0x1c00ffff⟩, ⟨9, 900, 0x1c010000⟩, ⟨8, 800, 0x1c020000⟩,
          ⟨7, 700, 0x1b00ffff⟩, ⟨6, 600, 0x1d00aaaa⟩]
        ⟨⟨2 ^ 255, 0x207fffff, false, 400000000000, 100000000000, 4, false, 0,
          1, 2, 3, 0, 3600, 0x1d00ffff⟩, 4, 1, 1000000⟩ =
      .ok (BigToCompact (CompactToBig (headBits (windowStartWalk
        [⟨10, 1000, 0x1c00ffff⟩, ⟨9, 900, 0x1c010000⟩, ⟨8, 800, 0x1c020000⟩,
          ⟨7, 700, 0x1b00ffff⟩, ⟨6, 600, 0x1d00aaaa⟩] (3 : Int).toNat)))) :=
  ⟨by decide,
    claim_C8_lwmav2_fixed_point ⟨10, 1000, 0x1c00ffff⟩
      [⟨9, 900, 0x1c010000⟩, ⟨8, 800, 0x1c020000⟩, ⟨7, 700, 0x1b00ffff⟩,
        ⟨6, 600, 0x1d00aaaa⟩]
      ⟨⟨2 ^ 255, 0x207fffff, false, 400000000000, 100000000000, 4, false, 0,
        1, 2, 3, 0, 3600, 0x1d00ffff⟩, 4, 1, 1000000⟩
      (by decide) (by decide) (by decide) (by decide) (by decide) (by decide)⟩

example : byteLen 0x80FFFF = 3 := by decide
example : CompactToBig 0x1d00ffff = 0xffff * 2 ^ 208 := by decide
example : BigToCompact (0xffff * 2 ^ 208) = 0x1d00ffff := by decide
example : CalcWork 0x1d00ffff = 0x0000000100010001 := by decide
example : BigToCompact (CompactToBig 0x04000001) = 0x02010000 := by decide
